import Mathlib

/-!
Verification of the dependency-resolution core of `pipenv` (`pipenv/utils.py`),
as a shallow embedding in Lean 4.

Python dictionaries are modelled as insertion-ordered association lists with
unique keys (`Dict`), Python strings as Lean `String`s (with character-level
helpers where needed), and the collaborating capabilities that the module
imports from outside (the package finder, the PyPI metadata API, the on-disk
hash cache, the VCS checkout machinery, `requirementslib`'s requirement
objects) as explicit parameters or record fields, so that each function of
`utils.py` becomes a pure Lean function of its inputs and of those oracles.
-/

namespace Pipenv

/-! ## Python dict model

Insertion-ordered association lists.  `Dict.set` models `d[k] = v` (replaces
in place, appends when absent), `Dict.get?` models `d.get(k)`, `Dict.erase`
models `del d[k]`, `Dict.update` models `d.update(d2)`. -/

abbrev Dict (α : Type) := List (String × α)

namespace Dict

def get? {α : Type} : Dict α → String → Option α
  | [], _ => none
  | (k, v) :: d, key => if k = key then some v else get? d key

def set {α : Type} : Dict α → String → α → Dict α
  | [], key, v => [(key, v)]
  | (k, w) :: d, key, v => if k = key then (k, v) :: d else (k, w) :: set d key v

def erase {α : Type} (d : Dict α) (key : String) : Dict α :=
  d.filter (fun kv => kv.1 ≠ key)

def update {α : Type} (d d' : Dict α) : Dict α :=
  d'.foldl (fun acc kv => acc.set kv.1 kv.2) d

theorem update_singleton {α : Type} (d : Dict α) (k : String) (v : α) :
    d.update (set [] k v) = d.set k v := rfl

def keys {α : Type} (d : Dict α) : List String := d.map Prod.fst

theorem get?_set_self {α : Type} (d : Dict α) (k : String) (v : α) :
    (d.set k v).get? k = some v := by
  induction d with
  | nil => simp [set, get?]
  | cons kv d ih =>
    by_cases h : kv.1 = k <;> simp [set, get?, h, ih]

theorem get?_set_ne {α : Type} (d : Dict α) {k k' : String} (v : α) (h : k ≠ k') :
    (d.set k v).get? k' = d.get? k' := by
  induction d with
  | nil => simp [set, get?, h]
  | cons kv d ih =>
    by_cases hk : kv.1 = k
    · simp [set, get?, hk, h, Ne.symm h, ih]
    · by_cases hk' : kv.1 = k' <;> simp [set, get?, hk, hk', h, Ne.symm h, ih]

theorem get?_erase_self {α : Type} (d : Dict α) (k : String) :
    (d.erase k).get? k = none := by
  induction d with
  | nil => simp [erase, get?]
  | cons kv d ih =>
    by_cases h : kv.1 = k <;> simp_all [erase, get?, List.filter]

theorem get?_erase_ne {α : Type} (d : Dict α) {k k' : String} (h : k ≠ k') :
    (d.erase k).get? k' = d.get? k' := by
  induction d with
  | nil => simp [erase, get?]
  | cons kv d ih =>
    by_cases hk : kv.1 = k
    · have : kv.1 ≠ k' := by rw [hk]; exact h
      simp_all [erase, get?, List.filter]
    · by_cases hk' : kv.1 = k' <;> simp_all [erase, get?, List.filter]

/-- A conditional `set` (used to model Python code of the shape
`if cond: d[k] = v`) read at a different key. -/
theorem get?_ite_set_ne {α : Type} (d : Dict α) {k k' : String} (v : α)
    (c : Prop) [Decidable c] (h : k ≠ k') :
    (if c then d.set k v else d).get? k' = d.get? k' := by
  by_cases hc : c <;> simp [hc, get?_set_ne _ _ h]

end Dict

/-! ## Python values

Values stored in pipfile/lockfile entry dictionaries: strings, booleans,
lists of strings, and Python's `None`. -/

inductive Val : Type
  | str (s : String)
  | bool (b : Bool)
  | strs (l : List String)
  | none
  deriving DecidableEq, Repr

/-- Python truthiness of an entry value (`""`, `False`, `[]`, `None` are falsy). -/
def Val.truthy : Val → Bool
  | .str s => s ≠ ""
  | .bool b => b
  | .strs l => l ≠ []
  | .none => false

/-- A pipfile/lockfile entry: a Python dict from string keys to values. -/
abbrev Entry := Dict Val

/-- Model: `d.get(k)` where the caller expects a string, with `""` for a missing or
non-string value (callers below only use this where the source reads a key it
knows holds a string, or applies `.get(k, "")`). -/
def getStr (d : Entry) (k : String) : String :=
  match d.get? k with
  | some (.str s) => s
  | _ => ""

/-- Truthiness of `d.get(k)` (missing key is `None`, hence falsy). -/
def keyTruthy (d : Entry) (k : String) : Bool :=
  match d.get? k with
  | some v => v.truthy
  | none => false

/-! ## String helpers (character-level models of the Python `str` methods used) -/

/-- Contiguous-substring check: Python's `pat in s`. -/
def strHasSub (pat s : String) : Bool :=
  decide (pat.data <:+: s.data)

/-- ASCII lowercasing of one character; models CPython's `str.lower` on the
ASCII range (package names and the constant lists it is compared against here
are ASCII). -/
def lowerChar (c : Char) : Char :=
  if 65 ≤ c.toNat ∧ c.toNat ≤ 90 then Char.ofNat (c.toNat + 32) else c

/-- Model: `str.replace("_", "-")`: a single-character pattern, hence a character map. -/
def underscoreToDash (c : Char) : Char :=
  if c = '_' then '-' else c

/-- Model: `"git"`, `"svn"`, `"hg"`, `"bzr"` — `VCS_LIST` from utils.py. -/
def VCS_LIST : List String := ["git", "svn", "hg", "bzr"]

/-- Model: `SCHEME_LIST` from utils.py. -/
def SCHEME_LIST : List String :=
  ["http://", "https://", "ftp://", "ftps://", "file://"]

/-- Core of `pep423_name` over character lists:
`name = name.lower()`; if any entry of `VCS_LIST + SCHEME_LIST` is *not* a
substring of it, return `name.replace("_", "-")`, else return it unchanged. -/
def pep423Core (name : List Char) : List Char :=
  let name := name.map lowerChar
  if (VCS_LIST ++ SCHEME_LIST).any (fun i => ¬ (i.data <:+: name)) then
    name.map underscoreToDash
  else
    name

/-- Model: `pep423_name` from utils.py (lines 1560–1567). -/
def pep423_name (name : String) : String :=
  ⟨pep423Core name.data⟩

/-! ### Facts about the character maps -/

theorem toNat_ofNat_valid {n : Nat} (h : n.isValidChar) :
    (Char.ofNat n).toNat = n := by
  simp [Char.ofNat, h, Char.ofNatAux, Char.toNat, UInt32.toNat, BitVec.toNat_ofNatLt]

theorem lowerChar_eq_self_of_not {c : Char}
    (h : ¬ (65 ≤ c.toNat ∧ c.toNat ≤ 90)) : lowerChar c = c := by
  simp [lowerChar, h]

theorem lowerChar_lowerChar (c : Char) : lowerChar (lowerChar c) = lowerChar c := by
  by_cases h : 65 ≤ c.toNat ∧ c.toNat ≤ 90
  · have hv : (c.toNat + 32).isValidChar := Or.inl (by omega)
    have h1 : lowerChar c = Char.ofNat (c.toNat + 32) := by simp [lowerChar, h]
    have h2 : (lowerChar c).toNat = c.toNat + 32 := by
      rw [h1, toNat_ofNat_valid hv]
    exact lowerChar_eq_self_of_not (by rw [h2]; omega)
  · rw [lowerChar_eq_self_of_not h]
    exact lowerChar_eq_self_of_not h

theorem dash_dash (c : Char) :
    underscoreToDash (underscoreToDash c) = underscoreToDash c := by
  unfold underscoreToDash
  by_cases h : c = '_' <;> simp [h]

theorem map_fix_of_fix {f : Char → Char} {m : List Char}
    (hm : ∀ c ∈ m, f c = c) : m.map f = m := by
  calc m.map f = m.map id := List.map_congr_left hm
    _ = m := List.map_id m

theorem map_dash_eq_of_no_dash {p' pat : List Char}
    (hpat : ∀ c ∈ pat, c ≠ '-' ∧ c ≠ '_')
    (hp' : List.map underscoreToDash p' = pat) : p' = pat := by
  induction p' generalizing pat with
  | nil => simpa using hp'.symm
  | cons a as ih =>
    cases pat with
    | nil => simp at hp'
    | cons b bs =>
      simp only [List.map_cons, List.cons.injEq] at hp'
      obtain ⟨hab, hasbs⟩ := hp'
      have hb := hpat b (by simp)
      have hab' : a = b := by
        by_cases ha : a = '_'
        · exact absurd (by rw [← hab, ha]; rfl) (Ne.symm hb.1)
        · rw [← hab]; simp [underscoreToDash, ha]
      rw [hab', ih (fun c hc => hpat c (by simp [hc])) hasbs]

/-- Replacing `'_'` by `'-'` neither creates nor destroys occurrences of a
pattern that contains neither character. -/
theorem infix_map_dash {pat : List Char}
    (hpat : ∀ c ∈ pat, c ≠ '-' ∧ c ≠ '_') (n : List Char) :
    pat <:+: n.map underscoreToDash ↔ pat <:+: n := by
  constructor
  · rintro ⟨s, t, hst⟩
    have hst' : List.map underscoreToDash n = (s ++ pat) ++ t := by
      rw [← hst]
    rcases List.map_eq_append_iff.mp hst' with ⟨a, b, hn, ha, hb⟩
    rcases List.map_eq_append_iff.mp ha with ⟨a1, a2, ha12, ha1, ha2⟩
    refine ⟨a1, b, ?_⟩
    rw [hn, ha12, map_dash_eq_of_no_dash hpat ha2]
  · intro h
    have hmap := h.map underscoreToDash
    rwa [map_fix_of_fix (fun c hc => by
      simp [underscoreToDash, (hpat c hc).2])] at hmap

theorem any_not_infix_map_dash (n : List Char) :
    ((VCS_LIST ++ SCHEME_LIST).any
        (fun i => ¬ (i.data <:+: n.map underscoreToDash)))
      = ((VCS_LIST ++ SCHEME_LIST).any (fun i => ¬ (i.data <:+: n))) := by
  have h : ∀ i ∈ VCS_LIST ++ SCHEME_LIST, ∀ c ∈ i.data, c ≠ '-' ∧ c ≠ '_' := by
    decide
  have : ∀ i ∈ VCS_LIST ++ SCHEME_LIST,
      (decide ¬ (i.data <:+: n.map underscoreToDash))
        = (decide ¬ (i.data <:+: n)) := by
    intro i hi
    simp [infix_map_dash (h i hi) n]
  revert this
  generalize VCS_LIST ++ SCHEME_LIST = L
  intro hL
  induction L with
  | nil => rfl
  | cons a L ih =>
    simp only [List.any_cons, hL a (by simp)]
    rw [ih (fun i hi => hL i (by simp [hi]))]

/-- Claim **C9** — `pep423_name` is idempotent:
`pep423_name(pep423_name(x)) == pep423_name(x)` for every package name string. -/
theorem pep423_name_idempotent (x : String) :
    pep423_name (pep423_name x) = pep423_name x := by
  suffices h : pep423Core (pep423Core x.data) = pep423Core x.data by
    simp [pep423_name, h]
  set n := x.data.map lowerChar with hn
  have hfix : ∀ c ∈ n, lowerChar c = c := by
    intro c hc
    rcases List.mem_map.mp (hn ▸ hc) with ⟨d, _, rfl⟩
    exact lowerChar_lowerChar d
  have hfix2 : ∀ c ∈ n.map underscoreToDash, lowerChar c = c := by
    intro c hc
    rcases List.mem_map.mp hc with ⟨d, hd, rfl⟩
    by_cases hdu : d = '_'
    · rw [hdu]
      exact lowerChar_eq_self_of_not (by decide)
    · rw [show underscoreToDash d = d from by simp [underscoreToDash, hdu]]
      exact hfix d hd
  by_cases hc : ((VCS_LIST ++ SCHEME_LIST).any (fun i => ¬ (i.data <:+: n))) = true
  · have h1 : pep423Core x.data = n.map underscoreToDash := by
      simp only [pep423Core]
      rw [← hn, if_pos hc]
    rw [h1]
    simp only [pep423Core]
    rw [map_fix_of_fix hfix2, any_not_infix_map_dash, if_pos hc, List.map_map]
    exact List.map_congr_left (fun c _ => dash_dash c)
  · have h1 : pep423Core x.data = n := by
      simp only [pep423Core]
      rw [← hn, if_neg hc]
    rw [h1]
    simp only [pep423Core]
    rw [map_fix_of_fix hfix, if_neg hc]

/-! ## Python string ordering and `sorted`

Python compares strings lexicographically by code point; `sorted` returns an
ascending permutation of its input.  `sorted(set(l))` is modelled by
`pySortedSet`. -/

def lexLe : List Char → List Char → Bool
  | [], _ => true
  | _ :: _, [] => false
  | a :: as, b :: bs =>
    if a.toNat < b.toNat then true
    else if b.toNat < a.toNat then false
    else lexLe as bs

def pyStrLe (a b : String) : Bool := lexLe a.data b.data

theorem lexLe_total : ∀ (a b : List Char), lexLe a b = true ∨ lexLe b a = true
  | [], _ => Or.inl rfl
  | _ :: _, [] => Or.inr rfl
  | a :: as, b :: bs => by
    rcases Nat.lt_trichotomy a.toNat b.toNat with h | h | h
    · left; simp [lexLe, h]
    · have hne : ¬ a.toNat < b.toNat := by omega
      have hne' : ¬ b.toNat < a.toNat := by omega
      rcases lexLe_total as bs with hr | hr
      · left; simp [lexLe, hne, hne', hr]
      · right; simp [lexLe, hne, hne', hr]
    · right; simp [lexLe, h]

theorem lexLe_trans :
    ∀ {a b c : List Char}, lexLe a b = true → lexLe b c = true → lexLe a c = true
  | [], _, _, _, _ => rfl
  | _ :: _, [], _, hab, _ => by simp [lexLe] at hab
  | _ :: _, _ :: _, [], _, hbc => by simp [lexLe] at hbc
  | a :: as, b :: bs, c :: cs, hab, hbc => by
    rcases Nat.lt_trichotomy a.toNat b.toNat with h1 | h1 | h1
    · rcases Nat.lt_trichotomy b.toNat c.toNat with h2 | h2 | h2
      · simp [lexLe, h1.trans h2]
      · simp [lexLe, h2 ▸ h1]
      · exfalso
        simp [lexLe, Nat.lt_asymm h2, h2] at hbc
    · have hne : ¬ a.toNat < b.toNat := by omega
      have hne' : ¬ b.toNat < a.toNat := by omega
      simp only [lexLe, if_neg hne, if_neg hne'] at hab
      rcases Nat.lt_trichotomy b.toNat c.toNat with h2 | h2 | h2
      · simp [lexLe, h1 ▸ h2]
      · have hne2 : ¬ b.toNat < c.toNat := by omega
        have hne2' : ¬ c.toNat < b.toNat := by omega
        simp only [lexLe, if_neg hne2, if_neg hne2'] at hbc
        have hac : ¬ a.toNat < c.toNat := by omega
        have hca : ¬ c.toNat < a.toNat := by omega
        simp only [lexLe, if_neg hac, if_neg hca]
        exact lexLe_trans hab hbc
      · exfalso
        simp [lexLe, Nat.lt_asymm h2, h2] at hbc
    · exfalso
      simp [lexLe, Nat.lt_asymm h1, h1] at hab

/-- The ordering relation Python's `sorted` uses on strings. -/
def pyLe (a b : String) : Prop := pyStrLe a b = true

instance : DecidableRel pyLe := fun a b => by
  unfold pyLe; infer_instance

instance : IsTotal String pyLe :=
  ⟨fun a b => lexLe_total a.data b.data⟩

instance : IsTrans String pyLe :=
  ⟨fun _ _ _ hab hbc => lexLe_trans hab hbc⟩

/-- Python's `sorted` on a list of strings. -/
def pySorted (l : List String) : List String := List.insertionSort pyLe l

/-- Python's `sorted(set(l))`. -/
def pySortedSet (l : List String) : List String := pySorted l.dedup

theorem pySortedSet_sorted (l : List String) :
    (pySortedSet l).Sorted pyLe :=
  List.sorted_insertionSort pyLe l.dedup

theorem pySortedSet_nodup (l : List String) : (pySortedSet l).Nodup :=
  ((List.perm_insertionSort pyLe l.dedup).nodup_iff).mpr l.nodup_dedup

theorem mem_pySortedSet {l : List String} {s : String} :
    s ∈ pySortedSet l ↔ s ∈ l := by
  unfold pySortedSet pySorted
  rw [(List.perm_insertionSort pyLe l.dedup).mem_iff, List.mem_dedup]

/-! ## Marker normalization (`translate_markers`, utils.py lines 1884–1921) -/

/-- Model: `str.replace(a, b)` for one-character patterns. -/
def replaceChar (s : String) (a b : Char) : String :=
  ⟨s.data.map (fun c => if c = a then b else c)⟩

/-- A Python set of strings built by insertion. -/
def pyAdd (l : List String) (s : String) : List String :=
  if s ∈ l then l else l ++ [s]

/-- Keys of `packaging.markers.default_environment()`.
Modelled from the spec: the vendored `packaging` library is not under src/;
the spec's Marker Normalizer is described as canonicalizing environment-marker
keys such as `python_version` and `platform_system`; this is the standard
PEP 508 environment key list that `default_environment()` returns. -/
def default_environment_keys : List String :=
  ["implementation_name", "implementation_version", "os_name",
   "platform_machine", "platform_release", "platform_system",
   "platform_version", "python_full_version",
   "platform_python_implementation", "python_version", "sys_platform"]

/-- Model: `allowed_marker_keys = ["markers"] + list(default_environment().keys())`. -/
def allowed_marker_keys : List String := "markers" :: default_environment_keys

/-- Modelled from the spec: `str(packaging.markers.Marker(s))` — the vendored
marker parser/normalizer is not under src/.  Per the spec's marker round-trip
(`python_version` `3.8` becomes `python_version == '3.8'` after the
double-to-single-quote conversion done by the caller), a marker given as a
bare `key value` pair is normalized to `key == "value"`, and an expression
that already carries a comparison operator is kept as is. -/
def markerStr (s : String) : String :=
  if s.data.any (fun c => c ∈ ['=', '<', '>', '!', '~']) then s
  else
    let key : List Char := s.data.takeWhile (fun c => c ≠ ' ')
    let rest : List Char := (s.data.dropWhile (fun c => c ≠ ' ')).drop 1
    if rest = [] then s
    else ⟨key⟩ ++ " == \"" ++ ⟨rest⟩ ++ "\""

/-- String interpolation `f"{v}"` of an entry value. -/
def Val.pyStr : Val → String
  | .str s => s
  | .bool b => if b then "True" else "False"
  | .strs _ => ""
  | .none => "None"

/-- One iteration of `translate_markers`' loop over the marker-bearing keys
(`for m in pipfile_markers`, skipping `"markers"` itself): add
`str(Marker(f"{m} {pipfile_entry[m]}"))` to the marker set and pop the key. -/
def tmStep (orig : Entry) (acc : List String × Entry) (m : String) :
    List String × Entry :=
  (pyAdd acc.1 (markerStr (m ++ " " ++ Val.pyStr ((orig.get? m).getD Val.none))),
   acc.2.erase m)

/-- The `"markers"`-popping stage of `translate_markers`: `marker_str =
new_pipfile.pop("markers")`, and if it is truthy, `marker = str(Marker(...))`
is kept unless `'extra' in marker`. -/
def tmStage1 (pipfile_entry : Entry) : List String × Entry :=
  match pipfile_entry.get? "markers" with
  | Option.none => ([], pipfile_entry)
  | some v =>
    let popped := pipfile_entry.erase "markers"
    match v with
    | .str ms =>
      if ms = "" then ([], popped)
      else
        let m := markerStr ms
        if strHasSub "extra" m then ([], popped) else ([m], popped)
    | _ => ([], popped)

/-- The final stage of `translate_markers`: when the marker set is non-empty,
store `str(Marker(" or ".join(sorted(dedup(marker_set)))))` with `"` replaced
by `'` back under `"markers"` (the generator's `f"{s}" if " and " in s else
s` is the identity on each element). -/
def tmFinal (out : List String × Entry) : Entry :=
  if out.1 = [] then out.2
  else
    out.2.set "markers"
      (.str (replaceChar (markerStr (String.intercalate " or " (pySorted out.1)))
        '"' '\''))

/-- Model: `translate_markers` (utils.py lines 1884–1921): pop any `"markers"` key
(normalizing and keeping its value unless it mentions `extra`), convert each
marker-bearing key (`python_version`, …) into a normalized marker string,
OR the sorted, deduplicated marker set together, and store it back under
`"markers"` with double quotes replaced by single quotes. -/
def translate_markers (pipfile_entry : Entry) : Entry :=
  tmFinal
    ((pipfile_entry.keys.filter (fun k => k ∈ default_environment_keys)).foldl
      (tmStep pipfile_entry) (tmStage1 pipfile_entry))

theorem tmStage1_get? (e : Entry) {k : String} (hk : k ≠ "markers") :
    (tmStage1 e).2.get? k = e.get? k := by
  unfold tmStage1
  rcases h : e.get? "markers" with _ | v
  · rfl
  · have he := Dict.get?_erase_ne e (Ne.symm hk)
    cases v with
    | str ms =>
      by_cases hms : ms = "" <;> by_cases hx : strHasSub "extra" (markerStr ms) <;>
        simp [hms, hx, he]
    | bool b => simpa using he
    | strs l => simpa using he
    | none => simpa using he

theorem tmFold_get? (orig : Entry) (keys : List String)
    (acc : List String × Entry) {k : String} (hk : ∀ m ∈ keys, m ≠ k) :
    ((keys.foldl (tmStep orig) acc).2).get? k = acc.2.get? k := by
  induction keys generalizing acc with
  | nil => rfl
  | cons m ms ih =>
    rw [List.foldl_cons, ih _ (fun m' hm' => hk m' (by simp [hm']))]
    exact Dict.get?_erase_ne _ (hk m (by simp))

/-- Model: `translate_markers` only touches the `"markers"` key and the
environment-marker keys; every other key keeps its value. -/
theorem translate_markers_get?_not_allowed (e : Entry) {k : String}
    (hk : k ∉ allowed_marker_keys) :
    (translate_markers e).get? k = e.get? k := by
  have hkm : k ≠ "markers" := fun h => hk (by simp [allowed_marker_keys, h])
  have hkd : k ∉ default_environment_keys :=
    fun h => hk (by simp [allowed_marker_keys, h])
  have hks : ∀ m ∈ e.keys.filter (fun k' => k' ∈ default_environment_keys),
      m ≠ k := by
    intro m hm hmk
    subst hmk
    exact hkd (by simpa using (List.mem_filter.mp hm).2)
  unfold translate_markers tmFinal
  split
  · rw [tmFold_get? _ _ _ hks, tmStage1_get? e hkm]
  · rw [Dict.get?_set_ne _ _ (Ne.symm hkm), tmFold_get? _ _ _ hks,
      tmStage1_get? e hkm]

/-- Claim **C5** — `translate_markers({"python_version": "3.8"})` yields
`{"markers": "python_version == '3.8'"}`: the `python_version` key is removed
and replaced by one normalized single-quoted marker string. -/
theorem translate_markers_python_version :
    translate_markers [("python_version", .str "3.8")]
      = [("markers", .str "python_version == '3.8'")] := by
  rfl

/-! ## `HackedPythonVersion` (utils.py lines 231–250)

The context manager that injects `PIPENV_REQUESTED_PYTHON_VERSION` and
`PIP_PYTHON_PATH` into `os.environ` for the duration of one resolution
attempt.  The process environment is modelled as a string dictionary. -/

abbrev Env := Dict String

/-- Model: `HackedPythonVersion.__enter__`: `os.environ["PIPENV_REQUESTED_PYTHON_VERSION"]
= str(self.python_version)` when the version is truthy, and likewise for
`PIP_PYTHON_PATH` (`none` models a falsy non-string such as `False`). -/
def hackedEnter (python_version python_path : Option String) (env : Env) : Env :=
  let env1 := match python_version with
    | some v => if v = "" then env else env.set "PIPENV_REQUESTED_PYTHON_VERSION" v
    | Option.none => env
  match python_path with
  | some p => if p = "" then env1 else env1.set "PIP_PYTHON_PATH" p
  | Option.none => env1

/-- Model: `HackedPythonVersion.__exit__`: `del
os.environ["PIPENV_REQUESTED_PYTHON_VERSION"]` inside `try/except KeyError`;
nothing else is touched. -/
def hackedExit (env : Env) : Env :=
  env.erase "PIPENV_REQUESTED_PYTHON_VERSION"

/-- Claim **C4 counterexample** — the claim that both environment variables are
restored to their pre-attempt state on exit is false: entering with a python
path, from an environment in which `PIP_PYTHON_PATH` was `/usr/bin/python`,
leaves `PIP_PYTHON_PATH` set to the injected value after exit. -/
theorem hackedPythonVersion_not_restored_cex :
    (hackedExit (hackedEnter (some "3.7.0") (some "/opt/python/bin/python")
        [("PIP_PYTHON_PATH", "/usr/bin/python")])).get? "PIP_PYTHON_PATH"
      ≠ Dict.get? [("PIP_PYTHON_PATH", "/usr/bin/python")] "PIP_PYTHON_PATH" := by
  decide

/-- Claim **C4 (amended)** — what the exit path actually does: it unconditionally
removes `PIPENV_REQUESTED_PYTHON_VERSION` (rather than restoring a prior
value), and it never touches `PIP_PYTHON_PATH`, which keeps whatever value
entry gave it (the injected path when one was injected, the pre-existing
value otherwise). -/
theorem hackedExit_env (pv pp : Option String) (env : Env) :
    (hackedExit (hackedEnter pv pp env)).get? "PIPENV_REQUESTED_PYTHON_VERSION"
        = Option.none
  ∧ (hackedExit (hackedEnter pv pp env)).get? "PIP_PYTHON_PATH"
      = (match pp with
         | some p =>
            if p = "" then env.get? "PIP_PYTHON_PATH" else some p
         | Option.none => env.get? "PIP_PYTHON_PATH") := by
  constructor
  · exact Dict.get?_erase_self _ _
  · unfold hackedExit hackedEnter
    have hne : ("PIPENV_REQUESTED_PYTHON_VERSION" : String) ≠ "PIP_PYTHON_PATH" := by
      decide
    rcases pp with _ | p
    · rcases pv with _ | v
      · simp [Dict.get?_erase_ne _ hne]
      · by_cases hv : v = "" <;>
          simp [hv, Dict.get?_erase_ne _ hne, Dict.get?_set_ne _ _ hne]
    · by_cases hp : p = ""
      · rcases pv with _ | v
        · simp [hp, Dict.get?_erase_ne _ hne]
        · by_cases hv : v = "" <;>
            simp [hp, hv, Dict.get?_erase_ne _ hne, Dict.get?_set_ne _ _ hne]
      · simp [hp, Dict.get?_erase_ne _ hne, Dict.get?_set_self]

/-! ## `resolve_deps` — the two-pass orchestrator (utils.py lines 1329–1394)

The Python-version context of each pass is a pair (requested version,
python path); one full run of `actually_resolve_deps` under a context is an
opaque attempt whose outcome is either a result list, a `RuntimeError`
(caught by `resolve_deps`), or any other exception (which propagates). -/

structure PyCtx where
  python_version : Option String
  python_path : Option String
  deriving DecidableEq, Repr

inductive AttemptOutcome : Type
  | ok (results : List Entry)
  | runtimeError
  | raised
  deriving DecidableEq, Repr

inductive ResolveOut : Type
  | returned (results : List Entry)
  | exited (code : Nat)
  | raised
  deriving DecidableEq, Repr

/-- Model: `resolve_deps` (utils.py lines 1329–1394): with no deps, return at once;
otherwise run pass 1 under the target context (`HackedPythonVersion(python,
python_path)`), catching only `RuntimeError`; when pass 1 failed that way, run
pass 2 under the host context (`sys.version_info`/`sys.executable`), and on a
second `RuntimeError` call `sys.exit(1)`.  The second component records which
contexts were attempted, in order. -/
def resolve_deps (deps : List String) (target host : PyCtx)
    (attempt : PyCtx → AttemptOutcome) : ResolveOut × List PyCtx :=
  if deps = [] then (.returned [], [])
  else
    match attempt target with
    | .ok r => (.returned r, [target])
    | .raised => (.raised, [target])
    | .runtimeError =>
      match attempt host with
      | .ok r => (.returned r, [target, host])
      | .raised => (.raised, [target, host])
      | .runtimeError => (.exited 1, [target, host])

/-- Claim **C1** — when pass 1 fails with a `RuntimeError` and the retry under the
host context also fails with a `RuntimeError`, the process exits with status 1
after exactly two attempts: the target context followed by the host context.
There is no third attempt. -/
theorem resolve_deps_two_pass (deps : List String) (target host : PyCtx)
    (attempt : PyCtx → AttemptOutcome) (hdeps : deps ≠ [])
    (h1 : attempt target = .runtimeError)
    (h2 : attempt host = .runtimeError) :
    resolve_deps deps target host attempt = (.exited 1, [target, host]) := by
  simp [resolve_deps, hdeps, h1, h2]

/-- Witness for `resolve_deps_two_pass` at a concrete input. -/
theorem resolve_deps_two_pass_witness :
    resolve_deps ["requests"] ⟨some "3.7", some "/venv/bin/python"⟩
        ⟨some "3.9.1", some "/usr/bin/python"⟩ (fun _ => .runtimeError)
      = (.exited 1, [⟨some "3.7", some "/venv/bin/python"⟩,
          ⟨some "3.9.1", some "/usr/bin/python"⟩]) :=
  resolve_deps_two_pass _ _ _ _ (by decide) rfl rfl

/-! ## Hash collection (`Resolver.collect_hashes` and friends)

`pip`'s `Link` objects, `InstallRequirement`s, and the resolver's external
collaborators (the finder, the PyPI JSON API, the on-disk hash cache) are
modelled as records of data and oracle functions. -/

/-- Model: `pip_shims.shims.FAVORITE_HASH`. -/
def FAVORITE_HASH : String := "sha256"

def strStartsWith (s pre : String) : Bool := pre.data.isPrefixOf s.data

def strEndsWith (s suf : String) : Bool := suf.data.isSuffixOf s.data

/-- A pip `Link`: `hash`/`hash_name` are the fragment hash (empty string for
none), `is_existing_dir` the result of `link.is_existing_dir()`. -/
structure Link where
  url : String
  is_vcs : Bool
  is_file : Bool
  is_existing_dir : Bool
  hash_name : String
  hash : String
  deriving DecidableEq, Repr

/-- One version specifier: operator and version text. -/
structure VSpec where
  op : String
  version : String
  deriving DecidableEq, Repr

/-- A pip `InstallRequirement` as consumed by `collect_hashes` /
`is_pinned_requirement` (`req_is_none` models `ireq.req is None`). -/
structure IReq where
  name : String
  link : Option Link
  original_link : Option Link
  editable : Bool
  req_is_none : Bool
  specifier : List VSpec
  deriving DecidableEq, Repr

/-- The resolver's external collaborators during hash collection:
configured source URLs, the PyPI JSON API (`pypi_raw ireq` is the list of
digest strings of the pinned release, `none` when the request/parse fails —
the `except (ValueError, KeyError, ConnectionError)` path), the finder's
applicable candidates, the on-disk hash cache keyed by link, and the digest
of a freshly fetched artifact (`HashCacheMixin._get_file_hash`). -/
structure RCtx where
  source_urls : List String
  pypi_raw : IReq → Option (List String)
  applicable : IReq → List Link
  cache : Link → Option String
  file_digest : Link → String

/-- Model: `is_pinned_requirement` (utils.py lines 1407–1418). -/
def is_pinned_requirement (ireq : IReq) : Bool :=
  if ireq.editable then false
  else if ireq.req_is_none || ireq.specifier.length != 1 then false
  else match ireq.specifier with
    | [spec] => (spec.op == "==" || spec.op == "===")
        && !(strEndsWith spec.version ".*")
    | _ => false

theorem mem_pyAdd {l : List String} {x s : String} :
    s ∈ pyAdd l x ↔ s ∈ l ∨ s = x := by
  unfold pyAdd
  split
  · constructor
    · exact Or.inl
    · rintro (h | rfl) <;> [exact h; assumption]
  · simp

/-- Recursion underlying `Resolver.prepend_hash_types` (utils.py lines
892–901): skip falsy checksums, prefix `hash_type:` when absent, accumulate
into a set. -/
def prependHT (hash_type : String) : List String → List String → List String
  | [], acc => acc
  | c :: cs, acc =>
    if c = "" then prependHT hash_type cs acc
    else
      prependHT hash_type cs
        (pyAdd acc (if strStartsWith c (hash_type ++ ":") then c
          else hash_type ++ ":" ++ c))

/-- Model: `Resolver.prepend_hash_types` (utils.py lines 892–901). -/
def prepend_hash_types (checksums : List String) (hash_type : String) :
    List String :=
  prependHT hash_type checksums []

/-- Model: `_get_hashes_from_pypi` (utils.py lines 903–932) from the point of view of
its caller: on network/parse success, the release digests with the favorite
hash type prepended; on failure, `None`. -/
def get_hashes_from_pypi (ctx : RCtx) (ireq : IReq) : Option (List String) :=
  match ctx.pypi_raw ireq with
  | some digests => some (prepend_hash_types digests FAVORITE_HASH)
  | Option.none => Option.none

/-- Model: `HashCacheMixin.get_hash` (utils.py lines 388–395): the cached value when
present and truthy, else `_get_file_hash` = `":".join([h.name, h.hexdigest()])`
(stored back into the cache). -/
def hash_cache_get (ctx : RCtx) (link : Link) : String :=
  match ctx.cache link with
  | some v => if v = "" then FAVORITE_HASH ++ ":" ++ ctx.file_digest link else v
  | Option.none => FAVORITE_HASH ++ ":" ++ ctx.file_digest link

/-- Model: `Resolver._get_hash_from_link` (utils.py lines 967–973). -/
def get_hash_from_link (ctx : RCtx) (link : Link) : String :=
  if link.hash != "" && (link.hash_name == FAVORITE_HASH) then
    link.hash_name ++ ":" ++ link.hash
  else hash_cache_get ctx link

/-- The part of `collect_hashes` after the link checks: pinned check, PyPI
API (only when a configured source is a known public index, and only when it
returned something truthy), then the finder's applicable candidates (a Python
set comprehension, modelled with `dedup`). -/
def collect_hashes_tail (ctx : RCtx) (ireq : IReq) : List String :=
  if !is_pinned_requirement ireq then []
  else
    let viaPypi : Option (List String) :=
      if ctx.source_urls.any
          (fun url => strHasSub "python.org" url || strHasSub "pypi.org" url) then
        match get_hashes_from_pypi ctx ireq with
        | some hashes => if hashes.isEmpty then Option.none else some hashes
        | Option.none => Option.none
      else Option.none
    match viaPypi with
    | some hashes => hashes
    | Option.none => ((ctx.applicable ireq).map (get_hash_from_link ctx)).dedup

/-- Model: `Resolver.collect_hashes` (utils.py lines 934–959). -/
def collect_hashes (ctx : RCtx) (ireq : IReq) : List String :=
  match ireq.link with
  | some link =>
    if link.is_vcs || (link.is_file && link.is_existing_dir) then []
    else match ireq.original_link with
      | some ol => [get_hash_from_link ctx ol]
      | Option.none => collect_hashes_tail ctx ireq
  | Option.none => collect_hashes_tail ctx ireq

/-- Claim **C7** — `collect_hashes` returns the empty set for a VCS link or a link
to an existing local directory, and returns the empty set for a requirement
with no link that is not pinned to an exact version (pinned: not editable,
exactly one `==`/`===` specifier not ending in `.*`). -/
theorem collect_hashes_empty_cases (ctx : RCtx) (ireq : IReq) :
    (∀ link, ireq.link = some link →
      (link.is_vcs || (link.is_file && link.is_existing_dir)) = true →
      collect_hashes ctx ireq = [])
  ∧ (ireq.link = Option.none → is_pinned_requirement ireq = false →
      collect_hashes ctx ireq = []) := by
  constructor
  · intro link hlink hcase
    simp [collect_hashes, hlink, hcase]
  · intro hlink hpin
    simp [collect_hashes, hlink, collect_hashes_tail, hpin]

def cliLinkVcs : Link :=
  { url := "git+https://example.com/demo.git", is_vcs := true, is_file := false,
    is_existing_dir := false, hash_name := "", hash := "" }

def cliIreqVcs : IReq :=
  { name := "demo", link := some cliLinkVcs, original_link := Option.none,
    editable := false, req_is_none := false,
    specifier := [⟨"==", "1.0.0"⟩] }

def cliIreqUnpinned : IReq :=
  { name := "demo2", link := Option.none, original_link := Option.none,
    editable := false, req_is_none := false,
    specifier := [⟨">=", "1.0"⟩] }

def cliCtx : RCtx :=
  { source_urls := ["https://pypi.org/simple"],
    pypi_raw := fun _ => some ["abc123"],
    applicable := fun _ => [],
    cache := fun _ => Option.none,
    file_digest := fun _ => "deadbeef" }

/-- Witness for `collect_hashes_empty_cases` at concrete inputs. -/
theorem collect_hashes_empty_cases_witness :
    collect_hashes cliCtx cliIreqVcs = [] ∧
    collect_hashes cliCtx cliIreqUnpinned = [] :=
  ⟨(collect_hashes_empty_cases cliCtx cliIreqVcs).1 cliLinkVcs rfl (by decide),
   (collect_hashes_empty_cases cliCtx cliIreqUnpinned).2 rfl (by decide)⟩

/-! ### Well-formedness of collected hash strings -/

/-- Every hash string this module produces begins with `"sha256:"`, i.e. has
the `<algorithm>:<digest>` shape with the favorite hash algorithm. -/
def wfHash (s : String) : Prop :=
  strStartsWith s (FAVORITE_HASH ++ ":") = true

/-- A hash cache is well-formed when every truthy cached value has the
`<algorithm>:<digest>` shape (the cache is only ever written by
`_get_file_hash`, which produces exactly that shape). -/
def wfCache (ctx : RCtx) : Prop :=
  ∀ l v, ctx.cache l = some v → v ≠ "" → wfHash v

theorem strStartsWith_append (p r : String) : strStartsWith (p ++ r) p = true := by
  unfold strStartsWith
  rw [String.data_append]
  exact List.isPrefixOf_iff_prefix.mpr (List.prefix_append _ _)

theorem prependHT_wf (ht : String) :
    ∀ (cs acc : List String),
      (∀ s ∈ acc, strStartsWith s (ht ++ ":") = true) →
      ∀ s ∈ prependHT ht cs acc, strStartsWith s (ht ++ ":") = true := by
  intro cs
  induction cs with
  | nil => intro acc hacc s hs; exact hacc s hs
  | cons c cs ih =>
    intro acc hacc s hs
    unfold prependHT at hs
    by_cases hc : c = ""
    · rw [if_pos hc] at hs
      exact ih acc hacc s hs
    · rw [if_neg hc] at hs
      refine ih _ ?_ s hs
      intro t ht'
      rcases mem_pyAdd.mp ht' with h | rfl
      · exact hacc t h
      · by_cases hp : strStartsWith c (ht ++ ":") = true
        · simp [hp]
        · rw [if_neg (by simp [hp])]
          exact strStartsWith_append (ht ++ ":") c

theorem hash_cache_get_wf (ctx : RCtx) (link : Link) (hc : wfCache ctx) :
    wfHash (hash_cache_get ctx link) := by
  unfold hash_cache_get
  have hfile : wfHash (FAVORITE_HASH ++ ":" ++ ctx.file_digest link) :=
    strStartsWith_append (FAVORITE_HASH ++ ":") (ctx.file_digest link)
  rcases h : ctx.cache link with _ | v
  · exact hfile
  · by_cases hv : v = ""
    · simpa [hv] using hfile
    · simpa [hv] using hc link v h hv

theorem get_hash_from_link_wf (ctx : RCtx) (link : Link) (hc : wfCache ctx) :
    wfHash (get_hash_from_link ctx link) := by
  unfold get_hash_from_link
  by_cases h : (link.hash != "" && (link.hash_name == FAVORITE_HASH)) = true
  · have hname : link.hash_name = FAVORITE_HASH := by
      simp only [Bool.and_eq_true, beq_iff_eq] at h
      exact h.2
    rw [if_pos h, hname]
    exact strStartsWith_append (FAVORITE_HASH ++ ":") link.hash
  · rw [if_neg h]
    exact hash_cache_get_wf ctx link hc

/-- Every element of `collect_hashes` has the `<algorithm>:<digest>` shape,
provided the on-disk cache only holds well-formed values. -/
theorem collect_hashes_wf (ctx : RCtx) (ireq : IReq) (hc : wfCache ctx) :
    ∀ s ∈ collect_hashes ctx ireq, wfHash s := by
  have htail : ∀ s ∈ collect_hashes_tail ctx ireq, wfHash s := by
    intro s hs
    unfold collect_hashes_tail at hs
    by_cases hpin : (!is_pinned_requirement ireq) = true
    · rw [if_pos hpin] at hs; simp at hs
    · rw [if_neg hpin] at hs
      dsimp only at hs
      by_cases hsrc : (ctx.source_urls.any
          (fun url => strHasSub "python.org" url || strHasSub "pypi.org" url)) = true
      · rw [if_pos hsrc] at hs
        rcases hpy : get_hashes_from_pypi ctx ireq with _ | hashes
        · rw [hpy] at hs
          simp only at hs
          rcases List.mem_dedup.mp hs with hmem
          rcases List.mem_map.mp hmem with ⟨l, _, rfl⟩
          exact get_hash_from_link_wf ctx l hc
        · rw [hpy] at hs
          by_cases he : hashes.isEmpty = true
          · simp only [he, if_pos] at hs
            rcases List.mem_dedup.mp hs with hmem
            rcases List.mem_map.mp hmem with ⟨l, _, rfl⟩
            exact get_hash_from_link_wf ctx l hc
          · simp only [he, if_neg] at hs
            simp only [Bool.false_eq_true, if_false] at hs
            unfold get_hashes_from_pypi at hpy
            rcases hraw : ctx.pypi_raw ireq with _ | digests <;> rw [hraw] at hpy
            · exact absurd hpy (by simp)
            · have : hashes = prepend_hash_types digests FAVORITE_HASH := by
                injection hpy with h'; exact h'.symm
              subst this
              exact prependHT_wf FAVORITE_HASH digests [] (by simp) s hs
      · rw [if_neg hsrc] at hs
        simp only at hs
        rcases List.mem_dedup.mp hs with hmem
        rcases List.mem_map.mp hmem with ⟨l, _, rfl⟩
        exact get_hash_from_link_wf ctx l hc
  intro s hs
  unfold collect_hashes at hs
  rcases hlink : ireq.link with _ | link
  · rw [hlink] at hs
    exact htail s hs
  · rw [hlink] at hs
    dsimp only at hs
    by_cases hcase : (link.is_vcs || (link.is_file && link.is_existing_dir)) = true
    · rw [if_pos hcase] at hs; simp at hs
    · rw [if_neg hcase] at hs
      rcases hol : ireq.original_link with _ | ol <;> rw [hol] at hs <;>
        dsimp only at hs
      · exact htail s hs
      · simp only [List.mem_singleton] at hs
        subst hs
        exact get_hash_from_link_wf ctx ol hc

/-! ## Lockfile entry formatting
(`format_requirement_for_lockfile`, utils.py lines 1027–1060, and
`Resolver._clean_skipped_result`, lines 975–990) -/

/-- A Pipfile value: either a bare version string or a structured entry. -/
inductive PipVal : Type
  | str (s : String)
  | map (e : Entry)
  deriving DecidableEq, Repr

/-- Python truthiness of a Pipfile value. -/
def PipVal.truthy : PipVal → Bool
  | .str s => s ≠ ""
  | .map e => e ≠ []

/-- A `requirementslib` `Requirement` as consumed by
`format_requirement_for_lockfile`: `specifiers` is `req.specifiers` (`none`
for falsy), `version` is `str(req.get_version())`, `pipfile_entry` the second
component of `req.pipfile_entry`, `is_vcs` the truthiness of `req.vcs` /
`req.is_vcs`, `is_direct_url` is `req.line_instance.is_direct_url`, and `uri`
is `req.req.uri`. -/
structure FReq where
  name : String
  normalized_name : String
  specifiers : Option String
  version : String
  pipfile_entry : PipVal
  is_vcs : Bool
  editable : Bool
  is_direct_url : Bool
  uri : String

/-- Lines 1037–1045: the initial entry — `{"version": pf_entry.lstrip("=")}`
when the pipfile entry is a bare string; otherwise a copy of the pipfile
entry dict, with the resolved version (unless VCS) and, for non-VCS direct
URLs, the `file` key. -/
def fmtBase (req : FReq) : Entry :=
  match req.pipfile_entry with
  | .str pf => [("version", .str ⟨pf.data.dropWhile (fun c => c = '=')⟩)]
  | .map pf =>
    let e := Dict.update [] pf
    let e := match req.specifiers with
      | some _ => if !req.is_vcs then e.set "version" (.str req.version) else e
      | Option.none => e
    if req.is_direct_url && !req.is_vcs then e.set "file" (.str req.uri) else e

/-- Lines 1046–1047 (and 988–989): `if hashes: entry["hashes"] =
sorted(set(hashes))`. -/
def fmtHashes (hashes : List String) (e : Entry) : Entry :=
  if hashes.isEmpty then e else e.set "hashes" (.strs (pySortedSet hashes))

/-- Lines 1049–1050: `if index: entry.update({"index": index})`. -/
def fmtIndexKey (req : FReq) (index_lookup : Dict String) (e : Entry) : Entry :=
  match index_lookup.get? req.normalized_name with
  | some i => if i = "" then e else e.set "index" (.str i)
  | Option.none => e

/-- Lines 1051–1052: `if markers: entry.update({"markers": markers})`. -/
def fmtMarkersKey (req : FReq) (markers_lookup : Dict String) (e : Entry) :
    Entry :=
  match markers_lookup.get? req.normalized_name with
  | some m => if m = "" then e else e.set "markers" (.str m)
  | Option.none => e

/-- Lines 1054–1059: for VCS or editable requirements, delete the `index`,
`version` and `file` keys (each inside `try/except KeyError`). -/
def fmtStrip (req : FReq) (e : Entry) : Entry :=
  if req.is_vcs || req.editable then
    ((e.erase "index").erase "version").erase "file"
  else e

/-- Model: `format_requirement_for_lockfile` (utils.py lines 1027–1060). -/
def format_requirement_for_lockfile (req : FReq)
    (markers_lookup index_lookup : Dict String) (hashes : List String) :
    String × Entry :=
  (pep423_name req.name,
   fmtStrip req (translate_markers
     (fmtMarkersKey req markers_lookup
       (fmtIndexKey req index_lookup
         ((fmtHashes hashes (fmtBase req)).set "name"
           (.str (pep423_name req.name)))))))

/-- The skipped-map requirement reconstructed by `Requirement.from_pipfile`
in `clean_results`: its name, VCS-ness, commit hash, and the
`InstallRequirement` produced by `req.as_ireq()`. -/
structure SReq where
  name : String
  is_vcs : Bool
  commit_hash : Option String
  ireq : IReq

/-- Model: `ref = ref if ref is not None else entry.get("ref")` followed by
`if ref: entry["ref"] = ref`. -/
def refStage (r : Option Val) (e : Entry) : Entry :=
  match r with
  | some v => if v.truthy then e.set "ref" v else e
  | Option.none => e

/-- Model: `Resolver._clean_skipped_result` (utils.py lines 975–990). -/
def clean_skipped_result (ctx : RCtx) (req : SReq) (value : Entry) :
    String × Entry :=
  let ref0 : Option Val :=
    if req.is_vcs then
      match req.commit_hash with
      | some r => some (.str r)
      | Option.none => Option.none
    else Option.none
  let entry := value.set "name" (.str req.name)
  let entry :=
    if keyTruthy entry "editable" && keyTruthy entry "version" then
      entry.erase "version"
    else entry
  let entry := refStage
    (match ref0 with
     | some r => some r
     | Option.none => entry.get? "ref") entry
  (req.name, fmtHashes (collect_hashes ctx req.ireq) entry)

/-! ### Key-preservation lemmas for the formatting stages -/

theorem fmtHashes_get?_ne (hashes : List String) (e : Entry) {k : String}
    (h : k ≠ "hashes") : (fmtHashes hashes e).get? k = e.get? k := by
  unfold fmtHashes
  split
  · rfl
  · exact Dict.get?_set_ne _ _ (Ne.symm h)

theorem fmtHashes_get?_self (hashes : List String) (e : Entry)
    (h : hashes ≠ []) :
    (fmtHashes hashes e).get? "hashes" = some (.strs (pySortedSet hashes)) := by
  unfold fmtHashes
  rw [if_neg (by simpa using h)]
  exact Dict.get?_set_self _ _ _

theorem fmtIndexKey_get? (req : FReq) (il : Dict String) (e : Entry)
    {k : String} (h : k ≠ "index") :
    (fmtIndexKey req il e).get? k = e.get? k := by
  unfold fmtIndexKey
  rcases il.get? req.normalized_name with _ | i
  · rfl
  · dsimp only
    split
    · rfl
    · exact Dict.get?_set_ne _ _ (Ne.symm h)

theorem fmtMarkersKey_get? (req : FReq) (ml : Dict String) (e : Entry)
    {k : String} (h : k ≠ "markers") :
    (fmtMarkersKey req ml e).get? k = e.get? k := by
  unfold fmtMarkersKey
  rcases ml.get? req.normalized_name with _ | m
  · rfl
  · dsimp only
    split
    · rfl
    · exact Dict.get?_set_ne _ _ (Ne.symm h)

theorem fmtStrip_get? (req : FReq) (e : Entry) {k : String}
    (h1 : k ≠ "index") (h2 : k ≠ "version") (h3 : k ≠ "file") :
    (fmtStrip req e).get? k = e.get? k := by
  unfold fmtStrip
  split
  · rw [Dict.get?_erase_ne _ (Ne.symm h3), Dict.get?_erase_ne _ (Ne.symm h2),
      Dict.get?_erase_ne _ (Ne.symm h1)]
  · rfl

theorem fmtStrip_version (req : FReq) (e : Entry)
    (h : (req.is_vcs || req.editable) = true) :
    (fmtStrip req e).get? "version" = Option.none := by
  unfold fmtStrip
  rw [if_pos h, Dict.get?_erase_ne _ (by decide), Dict.get?_erase_self]

theorem refStage_get? (r : Option Val) (e : Entry) {k : String}
    (h : k ≠ "ref") : (refStage r e).get? k = e.get? k := by
  unfold refStage
  rcases r with _ | v
  · rfl
  · dsimp only
    split
    · exact Dict.get?_set_ne _ _ (Ne.symm h)
    · rfl

/-- Claim **C6 counterexample** — the claim fails for `_clean_skipped_result`: a
non-editable VCS skipped entry whose stored record carries a `version` key
keeps that key, because the deletion at line 982 is guarded by
`entry.get("editable", False)`. -/
theorem clean_skipped_result_vcs_version_cex :
    (SReq.mk "demo" true (some "deadbeefcafe") cliIreqVcs).is_vcs = true ∧
    ((clean_skipped_result cliCtx
        (SReq.mk "demo" true (some "deadbeefcafe") cliIreqVcs)
        [("git", .str "https://example.com/demo.git"),
         ("version", .str "==1.0.0")]).2.get? "version"
      = some (.str "==1.0.0")) :=
  ⟨rfl, rfl⟩

/-- Claim **C6 (amended)** — entries formatted from solver output by
`format_requirement_for_lockfile` never carry a `version` key when the
requirement is VCS or editable; `_clean_skipped_result`, however, removes the
`version` key only when the stored entry is editable (with a truthy version),
so a non-editable VCS entry from the skipped map may retain one. -/
theorem lockfile_version_key_vcs_editable :
    (∀ (req : FReq) (ml il : Dict String) (hashes : List String),
        (req.is_vcs || req.editable) = true →
        (format_requirement_for_lockfile req ml il hashes).2.get? "version"
          = Option.none)
  ∧ (∀ (ctx : RCtx) (req : SReq) (value : Entry),
        keyTruthy value "editable" = true → keyTruthy value "version" = true →
        (clean_skipped_result ctx req value).2.get? "version" = Option.none) := by
  constructor
  · intro req ml il hashes h
    exact fmtStrip_version req _ h
  · intro ctx req value hed hver
    unfold clean_skipped_result
    dsimp only
    have hed' : keyTruthy (value.set "name" (.str req.name)) "editable" = true := by
      unfold keyTruthy at *
      rw [Dict.get?_set_ne _ _ (by decide)]
      exact hed
    have hver' : keyTruthy (value.set "name" (.str req.name)) "version" = true := by
      unfold keyTruthy at *
      rw [Dict.get?_set_ne _ _ (by decide)]
      exact hver
    rw [fmtHashes_get?_ne _ _ (by decide), refStage_get? _ _ (by decide),
      if_pos (show _ = true by rw [hed', hver']; rfl), Dict.get?_erase_self]

def wreqVcs : FReq :=
  { name := "demo", normalized_name := "demo", specifiers := some "==1.0.0",
    version := "==1.0.0",
    pipfile_entry := .map [("git", .str "https://example.com/demo.git")],
    is_vcs := true, editable := false, is_direct_url := false, uri := "" }

/-- Witness for `lockfile_version_key_vcs_editable` at concrete inputs. -/
theorem lockfile_version_key_vcs_editable_witness :
    (format_requirement_for_lockfile wreqVcs [] []
        ["sha256:aaa"]).2.get? "version" = Option.none ∧
    (clean_skipped_result cliCtx
        (SReq.mk "demo" false Option.none cliIreqUnpinned)
        [("editable", .bool true),
         ("version", .str "==1.0.0")]).2.get? "version" = Option.none :=
  ⟨lockfile_version_key_vcs_editable.1 wreqVcs [] [] ["sha256:aaa"] (by decide),
   lockfile_version_key_vcs_editable.2 cliCtx
     (SReq.mk "demo" false Option.none cliIreqUnpinned)
     [("editable", .bool true), ("version", .str "==1.0.0")]
     (by decide) (by decide)⟩

/-- Claim **C8** — hashes attached to final lockfile entries: both
`format_requirement_for_lockfile` and `_clean_skipped_result` store
`sorted(set(hashes))`; such a list is sorted and duplicate-free, and (given a
well-formed on-disk cache) every element collected by `collect_hashes` has
the `<algorithm>:<digest>` shape. -/
theorem lockfile_entry_hashes_invariant :
    (∀ (req : FReq) (ml il : Dict String) (hashes : List String), hashes ≠ [] →
        (format_requirement_for_lockfile req ml il hashes).2.get? "hashes"
          = some (.strs (pySortedSet hashes)))
  ∧ (∀ (ctx : RCtx) (req : SReq) (value : Entry),
        collect_hashes ctx req.ireq ≠ [] →
        (clean_skipped_result ctx req value).2.get? "hashes"
          = some (.strs (pySortedSet (collect_hashes ctx req.ireq))))
  ∧ (∀ l : List String, (pySortedSet l).Sorted pyLe ∧ (pySortedSet l).Nodup)
  ∧ (∀ (ctx : RCtx) (ireq : IReq), wfCache ctx →
        ∀ s ∈ pySortedSet (collect_hashes ctx ireq), wfHash s) := by
  refine ⟨?_, ?_, ?_, ?_⟩
  · intro req ml il hashes h
    unfold format_requirement_for_lockfile
    rw [fmtStrip_get? _ _ (by decide) (by decide) (by decide),
      translate_markers_get?_not_allowed _ (by decide),
      fmtMarkersKey_get? _ _ _ (by decide),
      fmtIndexKey_get? _ _ _ (by decide),
      Dict.get?_set_ne _ _ (by decide),
      fmtHashes_get?_self _ _ h]
  · intro ctx req value h
    unfold clean_skipped_result
    dsimp only
    exact fmtHashes_get?_self _ _ h
  · intro l
    exact ⟨pySortedSet_sorted l, pySortedSet_nodup l⟩
  · intro ctx ireq hc s hs
    exact collect_hashes_wf ctx ireq hc s (mem_pySortedSet.mp hs)

def wreqPlain : FReq :=
  { name := "requests", normalized_name := "requests",
    specifiers := some "==2.25.1", version := "==2.25.1",
    pipfile_entry := .map [], is_vcs := false, editable := false,
    is_direct_url := false, uri := "" }

def wlinkHash : Link :=
  { url := "https://files.example.com/requests-2.25.1.tar.gz", is_vcs := false,
    is_file := false, is_existing_dir := false, hash_name := "sha256",
    hash := "cafef00d" }

def wctxHash : RCtx :=
  { source_urls := [],
    pypi_raw := fun _ => Option.none,
    applicable := fun _ => [wlinkHash],
    cache := fun _ => Option.none,
    file_digest := fun _ => "0123abcd" }

def wireqPinned : IReq :=
  { name := "requests", link := Option.none, original_link := Option.none,
    editable := false, req_is_none := false,
    specifier := [⟨"==", "2.25.1"⟩] }

/-- Witness for `lockfile_entry_hashes_invariant` at concrete inputs. -/
theorem lockfile_entry_hashes_invariant_witness :
    (format_requirement_for_lockfile wreqPlain [] []
        ["sha256:bbb", "sha256:aaa", "sha256:bbb"]).2.get? "hashes"
      = some (.strs ["sha256:aaa", "sha256:bbb"])
  ∧ (clean_skipped_result wctxHash
        (SReq.mk "requests" false Option.none wireqPinned)
        [("version", .str "==2.25.1")]).2.get? "hashes"
      = some (.strs ["sha256:cafef00d"])
  ∧ (pySortedSet ["sha256:bbb", "sha256:aaa", "sha256:bbb"]).Sorted pyLe
  ∧ (∀ s ∈ pySortedSet (collect_hashes wctxHash wireqPinned), wfHash s) := by
  refine ⟨?_, ?_, ?_, ?_⟩
  · exact lockfile_entry_hashes_invariant.1 wreqPlain [] []
      ["sha256:bbb", "sha256:aaa", "sha256:bbb"] (by decide)
  · exact lockfile_entry_hashes_invariant.2.1 wctxHash
      (SReq.mk "requests" false Option.none wireqPinned)
      [("version", .str "==2.25.1")] (by decide)
  · exact (lockfile_entry_hashes_invariant.2.2.1
      ["sha256:bbb", "sha256:aaa", "sha256:bbb"]).1
  · exact lockfile_entry_hashes_invariant.2.2.2 wctxHash wireqPinned
      (by intro l v h; exact absurd h (by simp [wctxHash]))

/-! ## The Transitive Expander (`Resolver.get_deps_from_req`,
utils.py lines 556–659)

A requirement is modelled by the data `get_deps_from_req` reads from it;
the declared dependencies discovered from its build metadata
(`setup_info.requires`) each carry the requirement that
`cls.parse_line(line)` produces for them, so the function's recursion over
URL-sourced dependencies is structural. -/

/-- The fields of a `requirementslib` `Requirement` (and its parsed line /
setup info) consumed by `get_deps_from_req`:
`marker_false` is `req.requirement.marker and not marker.evaluate()` (resp.
`r.marker and not r.marker.evaluate()` for a declared dependency);
`vcs_entry` is the `get_vcs_deps` lockfile entry (`pipfile_entry[1]` plus the
checked-out `ref`) used when the requirement is VCS;
`is_local_installable` is `parsed_line.is_local and
is_installable_dir(parsed_line.path)`;
`pinned_name`/`pinned_entry` give the `pipfile_entry` of the requirement
re-pinned to the finder's best candidate version with its hashes added
(lines 639–643). -/
structure ReqCore where
  name : String
  is_file_or_url : Bool
  is_vcs : Bool
  is_wheel : Bool
  editable : Bool
  marker_false : Bool
  constraint_line : String
  specifiers : Option String
  setup_version : Option String
  pipfile_entry : Entry
  vcs_entry : Entry
  parsed_is_wheel : Bool
  is_local_installable : Bool
  pinned_name : String
  pinned_entry : String → Entry

mutual
inductive RReq : Type
  | mk : ReqCore → List RDep → RReq
inductive RDep : Type
  | mk : (has_url : Bool) → (editable : Bool) → (marker_false : Bool) →
      (line : String) → (parsed : RReq) → RDep
end

def RReq.core : RReq → ReqCore
  | .mk c _ => c

/-- Set union `constraints |= new_constraints` on our list-as-set model. -/
def pyUnion (a b : List String) : List String := b.foldl pyAdd a

/-- Line 622–626: the explicit version override on the top-level entry of an
installable requirement (`locked_deps[name]["version"] = req.specifiers`, or
the discovered setup version as an exact pin); line 628 then re-stores that
same (mutated) entry object under `name`. -/
def topLevelVersion (core : ReqCore) (entry : Entry) : Entry :=
  if !core.is_vcs then
    match core.specifiers with
    | some s => entry.set "version" (.str s)
    | Option.none =>
      match core.setup_version with
      | some v => entry.set "version" (.str ("==" ++ v))
      | Option.none => entry
  else entry

/-- Model: `best_match = pypi.find_best_candidate(...).best_candidate if pypi else
None`, where `pypi = resolver.finder if resolver else None` (lines 635–637). -/
def finderBest (finder : Option (String → Option String)) (name : String) :
    Option String :=
  match finder with
  | some f => f name
  | Option.none => Option.none

/-- The plain-index-requirement branch of `get_deps_from_req` (lines
629–658): a requirement whose marker evaluates false is pinned to the
finder's best candidate and locked directly (or skipped entirely when no
candidate exists); otherwise its constraint line joins the constraint set. -/
def plainBranch (finder : Option (String → Option String)) (core : ReqCore) :
    List String × Dict Entry :=
  if core.marker_false then
    match finderBest finder core.name with
    | some v =>
      ([], Dict.set [] (pep423_name core.pinned_name)
        (translate_markers (core.pinned_entry v)))
    | Option.none => ([], [])
  else
    ([core.constraint_line], [])

mutual
/-- Model: `Resolver.get_deps_from_req` (utils.py lines 556–659).  `finder` is
`resolver.finder` when a resolver was passed (`none` models `resolver=None`,
in which case `best_match` is `None`). -/
def get_deps_from_req (finder : Option (String → Option String))
    (resolve_vcs : Bool) : RReq → List String × Dict Entry
  | .mk core deps =>
    if (core.is_file_or_url || core.is_vcs) && !core.is_wheel then
      -- installable source branch (lines 568–628)
      let entry := if core.is_vcs then core.vcs_entry else core.pipfile_entry
      let locked0 : Dict Entry := Dict.set [] (pep423_name core.name) entry
      let res :=
        if resolve_vcs || core.editable || core.parsed_is_wheel ||
            (core.is_file_or_url && core.is_local_installable) then
          depsFold finder core.pipfile_entry deps ([], locked0)
        else ([], locked0)
      (res.1, res.2.set core.name (topLevelVersion core entry))
    else
      plainBranch finder core

/-- The loop over the installable requirement's declared dependencies
(lines 595–617).  A URL-sourced, non-editable dependency whose marker
evaluates false is recorded under its own normalized name but with the
*parent's* pipfile entry (lines 603–607); other URL dependencies recurse
(with `resolve_vcs` at its default `True`); remaining dependencies with a
satisfied (or absent) marker contribute their line to the constraint set. -/
def depsFold (finder : Option (String → Option String))
    (parent_pipfile : Entry) :
    List RDep → List String × Dict Entry → List String × Dict Entry
  | [], acc => acc
  | (RDep.mk has_url ed mf line parsed) :: rest, acc =>
    let acc' :=
      if has_url && !ed then
        if mf then
          (acc.1, acc.2.update
            (Dict.set [] (pep423_name parsed.core.name) parent_pipfile))
        else
          let r := get_deps_from_req finder true parsed
          (pyUnion acc.1 r.1, acc.2.update r.2)
      else if !mf then (pyAdd acc.1 line, acc.2)
      else acc
    depsFold finder parent_pipfile rest acc'
end

def cexPlainCore : ReqCore :=
  { name := "pywin32", is_file_or_url := false, is_vcs := false,
    is_wheel := false, editable := false, marker_false := true,
    constraint_line := "pywin32==1.0; sys_platform == 'win32'",
    specifiers := some "==1.0", setup_version := Option.none,
    pipfile_entry := [], vcs_entry := [], parsed_is_wheel := false,
    is_local_installable := false, pinned_name := "pywin32",
    pinned_entry := fun _ => [] }

/-- Claim **C2 counterexample** — a plain requirement whose marker evaluates false
and for which the finder returns no candidate ends up in *neither* the
returned constraint set nor the returned locked map: both come back empty
(the `else: click_echo("Could not find a version ...")` path, lines
650–656). -/
theorem get_deps_from_req_neither_cex :
    cexPlainCore.marker_false = true ∧
    get_deps_from_req (some (fun _ => Option.none)) true
        (RReq.mk cexPlainCore []) = ([], []) :=
  ⟨rfl, rfl⟩

/-- Claim **C2 (amended)** — for a plain (non-installable) requirement the
partition holds in all but one case: with a satisfied (or absent) marker the
requirement goes to the constraint set only; with a false marker and a
finder candidate it goes to the locked map only; with a false marker and
*no* finder candidate it is skipped entirely and appears in neither.  An
installable requirement is always recorded in the locked map. -/
theorem get_deps_from_req_partition (f : String → Option String)
    (rv : Bool) (core : ReqCore) (deps : List RDep) :
    (((core.is_file_or_url || core.is_vcs) && !core.is_wheel) = false →
      (core.marker_false = false →
        get_deps_from_req (some f) rv (RReq.mk core deps)
          = ([core.constraint_line], []))
      ∧ (core.marker_false = true →
        (∀ v, f core.name = some v →
          get_deps_from_req (some f) rv (RReq.mk core deps)
            = ([], [(pep423_name core.pinned_name,
                translate_markers (core.pinned_entry v))]))
        ∧ (f core.name = Option.none →
          get_deps_from_req (some f) rv (RReq.mk core deps) = ([], []))))
  ∧ (((core.is_file_or_url || core.is_vcs) && !core.is_wheel) = true →
      (get_deps_from_req (some f) rv (RReq.mk core deps)).2.get? core.name
        = some (topLevelVersion core
            (if core.is_vcs then core.vcs_entry else core.pipfile_entry))) := by
  constructor
  · intro hplain
    constructor
    · intro hmf
      unfold get_deps_from_req plainBranch
      rw [if_neg (by simp [hplain]), if_neg (by simp [hmf])]
    · intro hmf
      constructor
      · intro v hv
        unfold get_deps_from_req plainBranch finderBest
        rw [if_neg (by simp [hplain]), if_pos hmf]
        dsimp only
        rw [hv]
        rfl
      · intro hv
        unfold get_deps_from_req plainBranch finderBest
        rw [if_neg (by simp [hplain]), if_pos hmf]
        dsimp only
        rw [hv]
  · intro hinst
    unfold get_deps_from_req
    rw [if_pos hinst]
    exact Dict.get?_set_self _ _ _

def wplainCore : ReqCore :=
  { cexPlainCore with
    marker_false := false, name := "requests",
    constraint_line := "requests==2.25.1", pinned_name := "requests" }

def winstCore : ReqCore :=
  { cexPlainCore with
    is_vcs := true, marker_false := false, name := "demo",
    constraint_line := "demo", pinned_name := "demo",
    vcs_entry := [("git", .str "https://example.com/demo.git"),
                  ("ref", .str "deadbeef")] }

/-- Witness for `get_deps_from_req_partition` at concrete inputs: the three
plain-branch cases and the installable case. -/
theorem get_deps_from_req_partition_witness :
    get_deps_from_req (some (fun _ => some "2.0")) true (RReq.mk wplainCore [])
      = (["requests==2.25.1"], [])
  ∧ get_deps_from_req (some (fun _ => some "2.0")) true
        (RReq.mk cexPlainCore [])
      = ([], [("pywin32", translate_markers (cexPlainCore.pinned_entry "2.0"))])
  ∧ get_deps_from_req (some (fun _ => Option.none)) true
        (RReq.mk cexPlainCore []) = ([], [])
  ∧ (get_deps_from_req (some (fun _ => Option.none)) true
        (RReq.mk winstCore [])).2.get? "demo"
      = some (topLevelVersion winstCore winstCore.vcs_entry) := by
  refine ⟨?_, ?_, ?_, ?_⟩
  · exact ((get_deps_from_req_partition (fun _ => some "2.0") true
      wplainCore []).1 (by decide)).1 rfl
  · have h := (((get_deps_from_req_partition (fun _ => some "2.0") true
      cexPlainCore []).1 (by decide)).2 rfl).1 "2.0" rfl
    simpa [show pep423_name cexPlainCore.pinned_name = "pywin32" from rfl]
      using h
  · exact (((get_deps_from_req_partition (fun _ => Option.none) true
      cexPlainCore []).1 (by decide)).2 rfl).2 rfl
  · have h := (get_deps_from_req_partition (fun _ => Option.none) true
      winstCore []).2 (by decide)
    simpa using h

/-- Claim **C10** — in the installable branch, a declared dependency that is
URL-sourced, non-editable, and whose marker evaluates false is recorded in
the locked map under its own normalized name but with the *parent*
requirement's pipfile entry (`_, new_entry = req.pipfile_entry`, lines
603–607), not with data of the dependency itself. -/
theorem get_deps_from_req_url_dep_false_marker
    (f : String → Option String) (rv : Bool) (core : ReqCore)
    (line : String) (parsed : RReq)
    (hinst : ((core.is_file_or_url || core.is_vcs) && !core.is_wheel) = true)
    (hcond : (rv || core.editable || core.parsed_is_wheel ||
        (core.is_file_or_url && core.is_local_installable)) = true)
    (hne : pep423_name parsed.core.name ≠ core.name) :
    (get_deps_from_req (some f) rv
        (RReq.mk core [RDep.mk true false true line parsed])).2.get?
        (pep423_name parsed.core.name)
      = some core.pipfile_entry := by
  unfold get_deps_from_req
  rw [if_pos hinst]
  dsimp only
  rw [if_pos hcond]
  rw [Dict.get?_set_ne _ _ (Ne.symm hne)]
  simp only [depsFold, Bool.not_false, Bool.and_true, Bool.true_and, if_true]
  rw [Dict.update_singleton]
  exact Dict.get?_set_self _ _ _

def wdepParsed : RReq :=
  RReq.mk { cexPlainCore with
    name := "win-dep", marker_false := true,
    constraint_line := "win-dep" } []

/-- Witness for `get_deps_from_req_url_dep_false_marker`: the URL-sourced
false-marker dependency of a VCS requirement is locked under its own name
with the parent's pipfile entry. -/
theorem get_deps_from_req_url_dep_false_marker_witness :
    (get_deps_from_req (some (fun _ => Option.none)) true
        (RReq.mk { winstCore with
            pipfile_entry := [("git", .str "https://example.com/demo.git")] }
          [RDep.mk true false true "win-dep" wdepParsed])).2.get? "win-dep"
      = some [("git", .str "https://example.com/demo.git")] := by
  have h := get_deps_from_req_url_dep_false_marker (fun _ => Option.none) true
    { winstCore with
      pipfile_entry := [("git", .str "https://example.com/demo.git")] }
    "win-dep" wdepParsed (by decide) (by decide) (by decide)
  simpa using h

/-! ## The Lockfile Merger (`clean_resolved_dep`, `get_locked_dep`,
`prepare_lockfile`; utils.py lines 1924–1977 and 1146–1198) -/

/-- Python's `str.strip()` (ASCII whitespace). -/
def pyStrip (s : String) : String :=
  let ws : List Char := [' ', '\t', '\n', '\r', '\x0b', '\x0c']
  ⟨((s.data.dropWhile (· ∈ ws)).reverse.dropWhile (· ∈ ws)).reverse⟩

/-- Modelled from the spec: `requirementslib.utils.is_vcs` (not under src/)
applied to a mapping entry — the spec's glossary defines a VCS requirement as
one sourced from a version-control repository, recognized here by the
presence of one of the `VCS_LIST` keys. -/
def is_vcs_entry (dep : Entry) : Bool :=
  dep.keys.any (fun k => decide (k ∈ VCS_LIST))

/-- Indexing a `PipVal` (a `TypeError` on a bare string in Python is
modelled as a missing key). -/
def pipValGet (pv : PipVal) (k : String) : Option Val :=
  match pv with
  | .map e => e.get? k
  | .str _ => Option.none

/-- Lines 1930–1934: the initial lockfile dict, holding the exact-pinned
version when the resolved record has a truthy, non-editable version. -/
def crdVersion (dep : Entry) : Entry :=
  match dep.get? "version" with
  | some v =>
    if v.truthy && !(keyTruthy dep "editable") then
      let vs := v.pyStr
      [("version", .str (if strStartsWith vs "==" then vs else "==" ++ vs))]
    else []
  | Option.none => []

/-- Model: `if o is not None: e[key] = o` (also models `if key in dep:
e[key] = dep[key]`). -/
def setIfSome (o : Option Val) (key : String) (e : Entry) : Entry :=
  match o with
  | some v => e.set key v
  | Option.none => e

theorem setIfSome_get? (o : Option Val) (key : String) (e : Entry)
    {k : String} (h : key ≠ k) : (setIfSome o key e).get? k = e.get? k := by
  rcases o with _ | v
  · rfl
  · exact Dict.get?_set_ne _ _ h

/-- Lines 1935–1943: for VCS records, carry over `ref`, the VCS key itself
(the first key of the record that names a VCS), and `subdirectory`. -/
def crdVcs (dep : Entry) (lockfile : Entry) : Entry :=
  if is_vcs_entry dep then
    let lf := setIfSome (dep.get? "ref") "ref" lockfile
    let lf := match dep.keys.find? (fun k => decide (k ∈ VCS_LIST)) with
      | some vcs_type => setIfSome (dep.get? vcs_type) vcs_type lf
      | Option.none => lf
    setIfSome (dep.get? "subdirectory") "subdirectory" lf
  else lockfile

/-- Lines 1944–1946: copy `hashes`, `index`, `extras`, `editable` over. -/
def crdCopyKeys (dep : Entry) (lockfile : Entry) : Entry :=
  ["hashes", "index", "extras", "editable"].foldl
    (fun lf key => setIfSome (dep.get? key) key lf)
    lockfile

/-- Lines 1947–1956: keep the user's `path`/`file` key when the lock chose
the other spelling. -/
def crdFsKey (dep : Entry) (pipfile_entry : Option PipVal) (lockfile : Entry) :
    Entry :=
  let fs_key := ["path", "file"].find? (fun k => (dep.get? k).isSome)
  let pipfile_fs_key : Option String := match pipfile_entry with
    | some (.str s) =>
      if s ≠ "" then ["path", "file"].find? (fun k => strHasSub k s)
      else Option.none
    | some (.map pe) =>
      if pe ≠ [] then ["path", "file"].find? (fun k => (pe.get? k).isSome)
      else Option.none
    | Option.none => Option.none
  match fs_key, pipfile_fs_key with
  | some fk, some pk =>
    if fk ≠ pk then
      match pipfile_entry with
      | some pv => setIfSome (pipValGet pv pk) pk lockfile
      | Option.none => lockfile
    else setIfSome (dep.get? fk) fk lockfile
  | some fk, Option.none => setIfSome (dep.get? fk) fk lockfile
  | Option.none, _ => lockfile

/-- Lines 1958–1976: marker precedence — for non-top-level packages keep the
record's own normalized markers; for top-level packages the Pipfile's
markers win (absent markers in a mapping Pipfile entry store `None`; a
non-mapping Pipfile entry raises `TypeError`, caught and ignored). -/
def crdMarkers (dep : Entry) (is_top_level : Bool)
    (pipfile_entry : Option PipVal) (lockfile : Entry) : Entry :=
  match dep.get? "markers" with
  | some (.str ms) =>
    if pyStrip ms ≠ "" then
      if !is_top_level then
        let translated := pyStrip (getStr (translate_markers dep) "markers")
        if translated ≠ "" then lockfile.set "markers" (.str translated)
        else lockfile
      else
        match pipfile_entry with
        | some (.map pe) =>
          lockfile.set "markers" (((translate_markers pe).get? "markers").getD .none)
        | _ => lockfile
    else lockfile
  | _ => lockfile

/-- Model: `clean_resolved_dep` (utils.py lines 1924–1977); the returned single-key
dict `{name: lockfile}` is modelled as the pair. -/
def clean_resolved_dep (dep : Entry) (is_top_level : Bool)
    (pipfile_entry : Option PipVal) : String × Entry :=
  (pep423_name (getStr dep "name"),
   crdMarkers dep is_top_level pipfile_entry
     (crdFsKey dep pipfile_entry
       (crdCopyKeys dep
         (crdVcs dep (crdVersion dep)))))

/-- Model: `next(iter(k for k in pipfile_section.keys() if pep423_name(k) ==
dep_name), None)` (lines 1157–1160). -/
def find_pipfile_key (sec : Dict PipVal) (dep_name : String) : Option String :=
  sec.keys.find? (fun k => pep423_name k == dep_name)

/-- Model: `get_locked_dep` (utils.py lines 1146–1176); the returned single-key
dict is modelled as the pair. -/
def get_locked_dep (dep : Entry) (pipfile_section : Dict PipVal)
    (prefer_pipfile : Bool := true) : String × Entry :=
  let entryOpt : Option PipVal :=
    if getStr dep "name" ≠ "" then
      match find_pipfile_key pipfile_section (pep423_name (getStr dep "name")) with
      | some k => pipfile_section.get? k
      | Option.none => Option.none
    else Option.none
  let is_top_level := match entryOpt with
    | some e => e.truthy
    | Option.none => false
  let cleaned := clean_resolved_dep dep is_top_level
    (if is_top_level then entryOpt else Option.none)
  let version : String := match entryOpt with
    | some (.map e) => if e ≠ [] then getStr e "version" else ""
    | some (.str s) => s
    | Option.none => ""
  let lockfile_version := getStr cleaned.2 "version"
  let final :=
    if prefer_pipfile && lockfile_version != version
        && strStartsWith version "==" && !(strHasSub "*" version) then
      cleaned.2.set "version" (.str version)
    else cleaned.2
  (cleaned.1, final)

/-- Model: `prepare_lockfile` (utils.py lines 1179–1198). -/
def prepare_lockfile (results : List Entry) (pipfile : Dict PipVal)
    (lockfile : Dict PipVal) : Dict PipVal :=
  results.foldl
    (fun lf dep =>
      if dep = [] then lf
      else
        let nd := get_locked_dep dep pipfile
        match lf.get? nd.1 with
        | some cur =>
          if cur.truthy then
            match cur with
            | .map cure => lf.set nd.1 (.map (translate_markers (cure.update nd.2)))
            | .str _ => lf.set nd.1 (.map nd.2)
          else lf.set nd.1 (.map nd.2)
        | Option.none => lf.set nd.1 (.map nd.2))
    lockfile

/-! ### The pin-precedence property -/

/-- The version the Pipfile declares for an entry (`entry.get("version", "")`
for a mapping entry, the entry itself when it is a bare string, `""`
otherwise) — lines 1166–1169. -/
def declaredVersion (pv : PipVal) : String :=
  match pv with
  | .map e => if e ≠ [] then getStr e "version" else ""
  | .str s => s

theorem crdVersion_of_pinned {dep : Entry} {rv : String}
    (hver : dep.get? "version" = some (.str rv)) (hrv : rv ≠ "")
    (hed : keyTruthy dep "editable" = false) :
    crdVersion dep
      = [("version", .str (if strStartsWith rv "==" then rv else "==" ++ rv))] := by
  unfold crdVersion
  rw [hver]
  simp [Val.truthy, Val.pyStr, hrv, hed]

theorem crdVcs_get?_version (dep lf : Entry) :
    (crdVcs dep lf).get? "version" = lf.get? "version" := by
  unfold crdVcs
  by_cases h : is_vcs_entry dep = true
  · rw [if_pos h]
    dsimp only
    rw [setIfSome_get? _ _ _ (by decide)]
    rcases h2 : dep.keys.find? (fun k => decide (k ∈ VCS_LIST)) with _ | vt
    · rw [setIfSome_get? _ _ _ (by decide)]
    · have hvt : vt ∈ VCS_LIST := by simpa using List.find?_some h2
      rw [setIfSome_get? _ _ _
          (fun hv => by rw [hv] at hvt; exact absurd hvt (by decide)),
        setIfSome_get? _ _ _ (by decide)]
  · rw [if_neg h]

theorem crdCopyKeys_get?_version (dep lf : Entry) :
    (crdCopyKeys dep lf).get? "version" = lf.get? "version" := by
  unfold crdCopyKeys
  simp only [List.foldl_cons, List.foldl_nil]
  rw [setIfSome_get? _ _ _ (by decide), setIfSome_get? _ _ _ (by decide),
    setIfSome_get? _ _ _ (by decide), setIfSome_get? _ _ _ (by decide)]

theorem crdFsKey_get?_version (dep : Entry) (pe : Option PipVal) (lf : Entry) :
    (crdFsKey dep pe lf).get? "version" = lf.get? "version" := by
  have hmem2 : ∀ (p : String → Bool) (fk : String),
      List.find? p ["path", "file"] = some fk → fk ≠ "version" := by
    intro p fk h
    have hm : fk = "path" ∨ fk = "file" := by
      simpa using List.mem_of_find?_eq_some h
    rcases hm with rfl | rfl <;> decide
  unfold crdFsKey
  dsimp only
  rcases h1 : List.find? (fun k => (Dict.get? dep k).isSome) ["path", "file"]
    with _ | fk
  · rfl
  · have hfk := hmem2 _ fk h1
    rcases pe with _ | pv
    · exact setIfSome_get? _ _ _ hfk
    · rcases pv with s | e
      · dsimp only
        by_cases hs : s ≠ ""
        · rw [if_pos hs]
          rcases h2 : List.find? (fun k => strHasSub k s) ["path", "file"]
            with _ | pk
          · exact setIfSome_get? _ _ _ hfk
          · have hpk' := hmem2 _ pk h2
            dsimp only
            by_cases hne : fk ≠ pk
            · rw [if_pos hne]
              exact setIfSome_get? _ _ _ hpk'
            · rw [if_neg hne]
              exact setIfSome_get? _ _ _ hfk
        · rw [if_neg hs]
          exact setIfSome_get? _ _ _ hfk
      · dsimp only
        by_cases hs : e ≠ []
        · rw [if_pos hs]
          rcases h2 : List.find? (fun k => (Dict.get? e k).isSome) ["path", "file"]
            with _ | pk
          · exact setIfSome_get? _ _ _ hfk
          · have hpk' := hmem2 _ pk h2
            dsimp only
            by_cases hne : fk ≠ pk
            · rw [if_pos hne]
              exact setIfSome_get? _ _ _ hpk'
            · rw [if_neg hne]
              exact setIfSome_get? _ _ _ hfk
        · rw [if_neg hs]
          exact setIfSome_get? _ _ _ hfk

theorem crdMarkers_get?_version (dep : Entry) (itl : Bool)
    (pe : Option PipVal) (lf : Entry) :
    (crdMarkers dep itl pe lf).get? "version" = lf.get? "version" := by
  unfold crdMarkers
  rcases h : dep.get? "markers" with _ | v
  · rfl
  · cases v with
    | str ms =>
      dsimp only
      by_cases hms : pyStrip ms ≠ ""
      · rw [if_pos hms]
        by_cases hitl : (!itl) = true
        · rw [if_pos hitl]
          split
          · exact Dict.get?_set_ne _ _ (by decide)
          · rfl
        · rw [if_neg hitl]
          rcases pe with _ | pv
          · rfl
          · rcases pv with s | e
            · rfl
            · exact Dict.get?_set_ne _ _ (by decide)
      · rw [if_neg hms]
    | bool b => rfl
    | strs l => rfl
    | none => rfl

theorem clean_resolved_dep_version {dep : Entry} {rv : String}
    (itl : Bool) (pe : Option PipVal)
    (hver : dep.get? "version" = some (.str rv)) (hrv : rv ≠ "")
    (hed : keyTruthy dep "editable" = false) :
    (clean_resolved_dep dep itl pe).2.get? "version"
      = some (.str (if strStartsWith rv "==" then rv else "==" ++ rv)) := by
  unfold clean_resolved_dep
  dsimp only
  rw [crdMarkers_get?_version, crdFsKey_get?_version, crdCopyKeys_get?_version,
    crdVcs_get?_version, crdVersion_of_pinned hver hrv hed]
  simp [Dict.get?]

/-- Lines 1171–1175 in isolation: the effect of the pin-override `if` on the
final `version` value. -/
theorem pinIf_getStr (cleaned2 : Entry) (dv : String) :
    getStr (if (true && (getStr cleaned2 "version" != dv)
          && strStartsWith dv "==" && !(strHasSub "*" dv)) = true
        then cleaned2.set "version" (.str dv) else cleaned2) "version"
      = (if (strStartsWith dv "==" && !(strHasSub "*" dv)) = true then dv
         else getStr cleaned2 "version") := by
  by_cases hexact : (strStartsWith dv "==" && !(strHasSub "*" dv)) = true
  · rw [if_pos hexact]
    by_cases heq : getStr cleaned2 "version" = dv
    · have hx : (getStr cleaned2 "version" != dv) = false := by
        simp [heq]
      rw [if_neg (by rw [hx]; simp)]
      exact heq
    · have hx : (getStr cleaned2 "version" != dv) = true := by
        simp [heq]
      rw [if_pos (by
        rw [hx]
        simp only [Bool.true_and]
        exact hexact)]
      unfold getStr
      rw [Dict.get?_set_self]
  · rw [if_neg hexact]
    rw [if_neg (fun hc => hexact (by
      simp only [Bool.and_eq_true] at hc
      simp only [Bool.and_eq_true]
      exact ⟨hc.1.2, hc.2⟩))]

/-- Claim **C3** — pin precedence when preparing the lockfile: with a resolved
record carrying a truthy non-editable version `rv` (cleaned to an exact pin)
and a Pipfile entry declaring version `declaredVersion pv`, the final
lockfile version is the Pipfile's declared version whenever that declaration
is an exact pin (`==`, no wildcard) — in particular whenever it differs from
the resolved version — and the cleaned resolved version otherwise; and
`prepare_lockfile` stores exactly this entry under the computed name when the
target section is empty. -/
theorem get_locked_dep_pin_precedence
    (dep : Entry) (pipfile : Dict PipVal) {n rv k0 : String} {pv : PipVal}
    (hname : getStr dep "name" = n) (hn : n ≠ "")
    (hfind : find_pipfile_key pipfile (pep423_name n) = some k0)
    (hpe : pipfile.get? k0 = some pv)
    (hver : dep.get? "version" = some (.str rv)) (hrv : rv ≠ "")
    (hed : keyTruthy dep "editable" = false) :
    (getStr (get_locked_dep dep pipfile).2 "version"
      = (if (strStartsWith (declaredVersion pv) "=="
              && !(strHasSub "*" (declaredVersion pv))) = true
         then declaredVersion pv
         else (if strStartsWith rv "==" then rv else "==" ++ rv)))
  ∧ prepare_lockfile [dep] pipfile []
      = [((get_locked_dep dep pipfile).1, .map (get_locked_dep dep pipfile).2)] := by
  have hdep : dep ≠ [] := by
    intro h
    rw [h] at hver
    exact absurd hver (by simp [Dict.get?])
  have hclean : ∀ (itl : Bool) (pe : Option PipVal),
      getStr (clean_resolved_dep dep itl pe).2 "version"
        = (if strStartsWith rv "==" then rv else "==" ++ rv) := by
    intro itl pe
    unfold getStr
    rw [clean_resolved_dep_version itl pe hver hrv hed]
  constructor
  · unfold get_locked_dep
    rw [hname, if_pos hn, hfind]
    dsimp only
    rw [hpe]
    dsimp only
    rcases pv with s | e
    · simp only [declaredVersion]
      rw [pinIf_getStr, hclean]
    · simp only [declaredVersion]
      rw [pinIf_getStr, hclean]
  · unfold prepare_lockfile
    rw [List.foldl_cons, List.foldl_nil, if_neg hdep]
    rfl

def wdepResolved : Entry := [("name", .str "pkg"), ("version", .str "1.3.0")]

def wpipfilePinned : Dict PipVal := [("pkg", .str "==1.2.0")]

/-- Witness for `get_locked_dep_pin_precedence`: a Pipfile pin `==1.2.0`
overrides a freshly resolved `1.3.0`. -/
theorem get_locked_dep_pin_precedence_witness :
    getStr (get_locked_dep wdepResolved wpipfilePinned).2 "version" = "==1.2.0"
  ∧ prepare_lockfile [wdepResolved] wpipfilePinned []
      = [((get_locked_dep wdepResolved wpipfilePinned).1,
          .map (get_locked_dep wdepResolved wpipfilePinned).2)] := by
  have h := get_locked_dep_pin_precedence wdepResolved wpipfilePinned
    (show getStr wdepResolved "name" = "pkg" from rfl) (by decide)
    (show find_pipfile_key wpipfilePinned (pep423_name "pkg") = some "pkg"
      from by decide)
    (show Dict.get? wpipfilePinned "pkg" = some (.str "==1.2.0") from rfl)
    (show Dict.get? wdepResolved "version" = some (.str "1.3.0") from rfl)
    (by decide) (by decide)
  exact ⟨by rw [h.1]; decide, h.2⟩

end Pipenv
